import Mathlib

/-!
Verification of the feature-tracking store, the control tool surface and the
orchestrator loop of the autonomous-agent template.

The definitions below are a shallow embedding of the TypeScript source:
the `features`, `notes` and `sessions` relations of the SQLite database are
modelled as Lean lists, each SQL statement becomes a pure function on those
lists, and the MCP tool handlers and the orchestrator's outer loop become
functions on an explicit state.  Timestamps are modelled as natural numbers
supplied by the caller (the source uses `CURRENT_TIMESTAMP`).
-/

namespace AutoAgent

/-- Feature status, from the type `FeatureStatus` of the database layer:
"pending" | "in_progress" | "completed" | "failed". -/
inductive FeatureStatus where
  | pending
  | in_progress
  | completed
  | failed
deriving DecidableEq, Repr

/-- A row of the `features` table: id (PRIMARY KEY), name, description,
category, testing_steps (serialized list), status, retry_count, created_at,
updated_at. -/
structure Feature where
  id : Nat
  name : String
  description : String
  category : String
  testing_steps : List String
  status : FeatureStatus
  retry_count : Nat
  created_at : Nat
  updated_at : Nat
deriving DecidableEq, Repr

/-- A row of the `notes` table: id, feature_id (nullable), category
(nullable), content, created_by_session, created_at. -/
structure Note where
  id : Nat
  feature_id : Option Nat
  category : Option String
  content : String
  created_by_session : Nat
  created_at : Nat
deriving DecidableEq, Repr

/-- Session status, from the `sessions` table: "running" | "completed" |
"failed". -/
inductive SessionStatus where
  | running
  | completed
  | failed
deriving DecidableEq, Repr

/-- A row of the `sessions` table.  `features_completed` is an SQL INTEGER
and the orchestrator stores a difference there, so it is modelled as `Int`.
The REAL column `cost_usd` is modelled as a rational number. -/
structure SessionRow where
  id : Nat
  started_at : Nat
  ended_at : Option Nat
  status : SessionStatus
  features_attempted : Nat
  features_completed : Int
  input_tokens : Option Nat
  output_tokens : Option Nat
  cost_usd : Option Rat
  error_message : Option String
deriving DecidableEq, Repr

/-- Terminal status accepted by `endSession`, from the TypeScript interface
`SessionStats`: status is "completed" | "failed". -/
inductive EndStatus where
  | completed
  | failed
deriving DecidableEq, Repr

/-- Embed an `EndStatus` into the full session status type. -/
def EndStatus.toSessionStatus : EndStatus → SessionStatus
  | .completed => .completed
  | .failed => .failed

/-- The statistics record passed to `endSession` (TypeScript interface
`SessionStats`; every field but `status` is optional). -/
structure SessionStats where
  status : EndStatus
  features_attempted : Option Nat
  features_completed : Option Int
  input_tokens : Option Nat
  output_tokens : Option Nat
  cost_usd : Option Rat
  error_message : Option String
deriving DecidableEq, Repr

/-- The per-session statistics accumulated by `runAgentSession` in
`agent.ts` (TypeScript interface `SessionStats` of that file):
`featuresCompleted` is the rolling count of completions observed from
tool-call events. -/
structure AgentSessionStats where
  inputTokens : Nat
  outputTokens : Nat
  cacheReadTokens : Nat
  cacheWriteTokens : Nat
  costUsd : Rat
  featuresCompleted : Nat
deriving DecidableEq, Repr

/-- Constant MAX_RETRIES from `mcp-server.ts`. -/
def MAX_RETRIES : Nat := 3

-- ===========================================================================
-- Store operations (db.ts)
-- ===========================================================================

/-- Query `SELECT ... WHERE status = 'pending'`: the pending rows, in table order. -/
def pendingFeatures (fs : List Feature) : List Feature :=
  fs.filter (fun f => f.status = FeatureStatus.pending)

/-- Comparison used by `ORDER BY id ASC`. -/
def featureIdLe (a b : Feature) : Prop := a.id ≤ b.id

instance : DecidableRel featureIdLe := fun a b => Nat.decLe a.id b.id

instance : IsTotal Feature featureIdLe := ⟨fun a b => Nat.le_total a.id b.id⟩

instance : IsTrans Feature featureIdLe := ⟨fun _ _ _ => Nat.le_trans⟩

/-- Lexicographic comparison of character lists by code point; this is the
order `ORDER BY category ASC` uses (SQLite BINARY collation compares the
UTF-8 bytes, and byte order on UTF-8 coincides with code-point order). -/
def charListLe : List Char → List Char → Bool
  | [], _ => true
  | _ :: _, [] => false
  | a :: as, b :: bs =>
    if a.toNat < b.toNat then true
    else if b.toNat < a.toNat then false
    else charListLe as bs

/-- String comparison: compare the underlying character lists. -/
def strLe (a b : String) : Bool := charListLe a.data b.data

/-- The smaller of two category strings. -/
def minCategory (a b : String) : String := if strLe a b then a else b

/-- The category query of `getNextFeatures`:
`SELECT category FROM features WHERE status = 'pending' GROUP BY category
ORDER BY category ASC LIMIT 1`, i.e. the least category string under the
collation order among the pending rows; `none` when no row is pending. -/
def minPendingCategory (fs : List Feature) : Option String :=
  match (pendingFeatures fs).map Feature.category with
  | [] => none
  | c :: cs => some (cs.foldl minCategory c)

/-- Function `getNextFeatures(projectDir, limit)`: pick the first category with
pending features (alphabetically least), then
`SELECT ... WHERE category = ? AND status = 'pending' ORDER BY id ASC
LIMIT ?`. -/
def getNextFeatures (fs : List Feature) (limit : Nat) : List Feature :=
  match minPendingCategory fs with
  | none => []
  | some c =>
    (List.insertionSort featureIdLe
      ((pendingFeatures fs).filter (fun f => f.category = c))).take limit

/-- Function `setFeatureStatus(projectDir, featureId, status)`:
`UPDATE features SET status = ?, updated_at = CURRENT_TIMESTAMP
WHERE id = ?`. -/
def setFeatureStatus (fs : List Feature) (now : Nat) (featureId : Nat)
    (status : FeatureStatus) : List Feature :=
  fs.map (fun f =>
    if f.id = featureId then { f with status := status, updated_at := now }
    else f)

/-- First UPDATE of `markFeatureForRetry`:
`UPDATE features SET retry_count = retry_count + 1 WHERE id = ?`. -/
def bumpRetryCount (fs : List Feature) (featureId : Nat) : List Feature :=
  fs.map (fun f =>
    if f.id = featureId then { f with retry_count := f.retry_count + 1 }
    else f)

/-- Query `SELECT ... FROM features WHERE id = ?` (first matching row). -/
def lookupFeature (fs : List Feature) (featureId : Nat) : Option Feature :=
  fs.find? (fun f => f.id = featureId)

/-- Second UPDATE of `markFeatureForRetry`:
`UPDATE features SET status = ? WHERE id = ?` (no updated_at change). -/
def setStatusOnly (fs : List Feature) (featureId : Nat)
    (status : FeatureStatus) : List Feature :=
  fs.map (fun f =>
    if f.id = featureId then { f with status := status } else f)

/-- Function `markFeatureForRetry(projectDir, featureId, maxRetries)`: increment the
retry count, read the new count `c`, set status to failed when
`c >= maxRetries` and to pending otherwise, and return the new status with
the count.  When no row has the id, the source throws after the (empty)
increment; this is modelled by returning `none` with the state unchanged
beyond the empty update. -/
def markFeatureForRetry (fs : List Feature) (featureId : Nat)
    (maxRetries : Nat) : List Feature × Option (FeatureStatus × Nat) :=
  let fs1 := bumpRetryCount fs featureId
  match lookupFeature fs1 featureId with
  | none => (fs1, none)
  | some row =>
    let retryCount := row.retry_count
    let newStatus : FeatureStatus :=
      if maxRetries ≤ retryCount then .failed else .pending
    (setStatusOnly fs1 featureId newStatus, some (newStatus, retryCount))

/-- Function `resetOrphanedFeatures(projectDir)`:
`UPDATE features SET status = 'pending' WHERE status = 'in_progress'`,
returning `result.changes` (the number of matched rows). -/
def resetOrphanedFeatures (fs : List Feature) : List Feature × Nat :=
  (fs.map (fun f =>
      if f.status = FeatureStatus.in_progress then
        { f with status := FeatureStatus.pending }
      else f),
   (fs.filter (fun f => f.status = FeatureStatus.in_progress)).length)

/-- Count of rows with a given status (one cell of `getKanbanStats`). -/
def countByStatus (fs : List Feature) (s : FeatureStatus) : Nat :=
  (fs.filter (fun f => f.status = s)).length

/-- The `completed` total of `getKanbanStats(projectDir)`. -/
def kanbanCompleted (fs : List Feature) : Nat :=
  countByStatus fs FeatureStatus.completed

/-- SQL equality between two nullable values: true only when both are
non-null and equal (a comparison involving NULL is not true). -/
def sqlEq {α : Type} [BEq α] : Option α → Option α → Bool
  | some a, some b => a == b
  | _, _ => false

/-- SQL match predicate of `getNotesForFeature`:
`feature_id = ? OR category = ? OR (feature_id IS NULL AND category IS
NULL)` under SQL three-valued logic. -/
def noteMatches (featureId : Option Nat) (category : Option String)
    (n : Note) : Bool :=
  sqlEq featureId n.feature_id || sqlEq category n.category ||
    (n.feature_id == none && n.category == none)

/-- Comparison used by `ORDER BY created_at DESC`. -/
def noteNewerLe (a b : Note) : Prop := b.created_at ≤ a.created_at

instance : DecidableRel noteNewerLe := fun a b => Nat.decLe b.created_at a.created_at

instance : IsTotal Note noteNewerLe := ⟨fun a b => Nat.le_total b.created_at a.created_at⟩

instance : IsTrans Note noteNewerLe :=
  ⟨fun _ _ _ h1 h2 => Nat.le_trans h2 h1⟩

/-- Function `getNotesForFeature(projectDir, featureId, category)`:
`SELECT * FROM notes WHERE <match> ORDER BY created_at DESC`. -/
def getNotesForFeature (notes : List Note) (featureId : Option Nat)
    (category : Option String) : List Note :=
  List.insertionSort noteNewerLe (notes.filter (noteMatches featureId category))

/-- Function `endSession(projectDir, sessionId, stats)`:
`UPDATE sessions SET ended_at = CURRENT_TIMESTAMP, status = ?,
features_attempted = ?, features_completed = ?, input_tokens = ?,
output_tokens = ?, cost_usd = ?, error_message = ? WHERE id = ?`, with the
`?? 0` / `?? null` defaults of the source. -/
def endSession (sessions : List SessionRow) (now : Nat) (sessionId : Nat)
    (stats : SessionStats) : List SessionRow :=
  sessions.map (fun r =>
    if r.id = sessionId then
      { r with
        ended_at := some now,
        status := stats.status.toSessionStatus,
        features_attempted := stats.features_attempted.getD 0,
        features_completed := stats.features_completed.getD 0,
        input_tokens := stats.input_tokens,
        output_tokens := stats.output_tokens,
        cost_usd := stats.cost_usd,
        error_message := stats.error_message }
    else r)

-- ===========================================================================
-- Control tool surface (mcp-server.ts)
-- ===========================================================================

/-- The status values accepted by the `feature_status` tool
(`z.enum(["in_progress", "completed", "pending"])`). -/
inductive ReqStatus where
  | in_progress
  | completed
  | pending
deriving DecidableEq, Repr

/-- Handler of the `feature_status` tool: status "pending" is a retry
request routed to `markFeatureForRetry` with MAX_RETRIES; the other two
values go to `setFeatureStatus` unconditionally. -/
def applyFeatureStatusTool (fs : List Feature) (now : Nat) (featureId : Nat)
    (s : ReqStatus) : List Feature :=
  match s with
  | .pending => (markFeatureForRetry fs featureId MAX_RETRIES).1
  | .in_progress => setFeatureStatus fs now featureId FeatureStatus.in_progress
  | .completed => setFeatureStatus fs now featureId FeatureStatus.completed

/-- The database state visible to the tool surface: the `features` and
`notes` relations plus the AUTOINCREMENT counter of `notes`. -/
structure DbState where
  features : List Feature
  notes : List Note
  nextNoteId : Nat
deriving DecidableEq, Repr

/-- Function `addNote(projectDir, note)`: `INSERT INTO notes (feature_id, category,
content, created_by_session) VALUES (?, ?, ?, ?)`. -/
def addNote (st : DbState) (featureId : Option Nat) (category : Option String)
    (content : String) (sessionId : Nat) (now : Nat) : DbState :=
  { st with
    notes := st.notes ++
      [{ id := st.nextNoteId, feature_id := featureId, category := category,
         content := content, created_by_session := sessionId,
         created_at := now }],
    nextNoteId := st.nextNoteId + 1 }

/-- The operations of the control tool surface registered in
`mcp-server.ts`. -/
inductive ToolOp where
  | featureStatusOp (featureId : Nat) (s : ReqStatus)
  | featureNote (featureId : Nat) (content : String)
  | categoryNote (category : String) (content : String)
  | globalNote (content : String)
  | getNotes (featureId : Option Nat) (category : Option String)
  | getStats (byCategory : Bool)
  | listFeatures (status : Option FeatureStatus) (limit : Option Nat)
  | verificationChecklist (featureName : String)
  | reportVerificationIssue (featureId : Nat) (content : String)
deriving DecidableEq, Repr

/-- One invocation of a tool, applied to the database state.  Read-only
tools leave the state unchanged; the note tools insert a row; the
`feature_status` tool dispatches as in the handler above. -/
def applyToolOp (now sessionId : Nat) (op : ToolOp) (st : DbState) : DbState :=
  match op with
  | .featureStatusOp featureId s =>
    { st with features := applyFeatureStatusTool st.features now featureId s }
  | .featureNote featureId content =>
    addNote st (some featureId) none content sessionId now
  | .categoryNote category content =>
    addNote st none (some category) content sessionId now
  | .globalNote content => addNote st none none content sessionId now
  | .getNotes _ _ => st
  | .getStats _ => st
  | .listFeatures _ _ => st
  | .verificationChecklist _ => st
  | .reportVerificationIssue featureId content =>
    addNote st (some featureId) none content sessionId now

/-- A timestamped tool invocation: wall-clock time, session id, operation. -/
def applyToolEvent (st : DbState) (e : Nat × Nat × ToolOp) : DbState :=
  applyToolOp e.1 e.2.1 e.2.2 st

/-- A whole session-side interaction: the tool invocations in order. -/
def applyToolSeq (st : DbState) (es : List (Nat × Nat × ToolOp)) : DbState :=
  es.foldl applyToolEvent st

/-- True for the one tool operation that writes feature rows. -/
def writesFeatures : ToolOp → Bool
  | .featureStatusOp _ _ => true
  | _ => false

-- ===========================================================================
-- Orchestrator (agent.ts)
-- ===========================================================================

/-- Retry invariant I2: every feature with retry_count at least MAX_RETRIES
has status failed. -/
def retryInvariant (fs : List Feature) : Prop :=
  ∀ f ∈ fs, MAX_RETRIES ≤ f.retry_count → f.status = FeatureStatus.failed

instance (fs : List Feature) : Decidable (retryInvariant fs) := by
  unfold retryInvariant; infer_instance

/-- The circuit-breaker state of the outer loop in `runAutonomousAgent`:
the consecutive-failure counter and, for observability, the number of
sessions opened so far. -/
structure LoopState where
  consecutiveFailures : Nat
  sessionsOpened : Nat
deriving DecidableEq, Repr

/-- Constant `maxConsecutiveFailures` from `agent.ts`. -/
def maxConsecutiveFailures : Nat := 3

/-- Effect of one iteration body once a session has been opened: a
successful iteration resets the counter to 0, a failed one increments it. -/
def iterResult (s : LoopState) (success : Bool) : LoopState :=
  { consecutiveFailures := if success then 0 else s.consecutiveFailures + 1,
    sessionsOpened := s.sessionsOpened + 1 }

/-- The outer loop of `runAutonomousAgent` restricted to the circuit
breaker: each list element is the outcome of one iteration that the while
condition admits; on entering the body, when the counter has reached
`maxConsecutiveFailures` and the force flag is not set, the loop breaks
before opening a session. -/
def runLoop (force : Bool) : List Bool → LoopState → LoopState
  | [], s => s
  | outcome :: rest, s =>
    if maxConsecutiveFailures ≤ s.consecutiveFailures ∧ force = false then s
    else runLoop force rest (iterResult s outcome)

/-- The `SessionStats` record built on the success path of an iteration in
`runAutonomousAgent`: status completed, features_attempted = batch length,
features_completed = completed count after the session minus the count
captured before it (the verified delta), token and cost figures from the
agent stream. -/
def closeSuccessStats (preSessionCompleted : Nat) (fsPost : List Feature)
    (batchLength : Nat) (agent : AgentSessionStats) : SessionStats :=
  { status := .completed,
    features_attempted := some batchLength,
    features_completed :=
      some ((kanbanCompleted fsPost : Int) - (preSessionCompleted : Int)),
    input_tokens := some agent.inputTokens,
    output_tokens := some agent.outputTokens,
    cost_usd := some agent.costUsd,
    error_message := none }

/-- Iterated retry calls on one feature (`markFeatureForRetry` applied k
times), the subject of law L2. -/
def retryIter (fs : List Feature) (featureId : Nat) (maxRetries : Nat) :
    Nat → List Feature
  | 0 => fs
  | k + 1 => (markFeatureForRetry (retryIter fs featureId maxRetries k)
      featureId maxRetries).1

/-- Modelled from the spec words of claim C1, for comparison only: the
category of the pending feature with the numerically lowest id. -/
def specLowestIdPendingCategory (fs : List Feature) : Option String :=
  match List.insertionSort featureIdLe (pendingFeatures fs) with
  | [] => none
  | f :: _ => some f.category

/-- A failed feature with the given id exists in the table. -/
def failedWithId (fs : List Feature) (i : Nat) : Prop :=
  ∃ g ∈ fs, g.id = i ∧ g.status = FeatureStatus.failed

instance (fs : List Feature) (i : Nat) : Decidable (failedWithId fs i) := by
  unfold failedWithId; infer_instance

-- ===========================================================================
-- Concrete tables used by counterexamples and witnesses
-- ===========================================================================

/-- Pending feature with the lowest id but the alphabetically largest
category. -/
def exZ : Feature :=
  { id := 1, name := "A", description := "", category := "zz",
    testing_steps := [], status := FeatureStatus.pending, retry_count := 0,
    created_at := 0, updated_at := 0 }

/-- Pending feature with a higher id in the alphabetically smallest
category. -/
def exA : Feature :=
  { id := 2, name := "B", description := "", category := "aa",
    testing_steps := [], status := FeatureStatus.pending, retry_count := 0,
    created_at := 0, updated_at := 0 }

/-- Second pending feature of category "aa". -/
def exA3 : Feature :=
  { id := 3, name := "C", description := "", category := "aa",
    testing_steps := [], status := FeatureStatus.pending, retry_count := 0,
    created_at := 0, updated_at := 0 }

/-- A feature already failed with retry_count = MAX_RETRIES: the state
reached after three retry requests. -/
def exT : Feature :=
  { id := 1, name := "A", description := "", category := "cat",
    testing_steps := [], status := FeatureStatus.failed, retry_count := 3,
    created_at := 0, updated_at := 0 }

/-- A completed feature with retry_count 0. -/
def exC : Feature :=
  { id := 1, name := "A", description := "", category := "cat",
    testing_steps := [], status := FeatureStatus.completed, retry_count := 0,
    created_at := 0, updated_at := 0 }

/-- Database state holding only the pending feature `exZ`. -/
def exPendingSt : DbState := { features := [exZ], notes := [], nextNoteId := 1 }

/-- Database state holding only the failed feature `exT`. -/
def exFailedSt : DbState := { features := [exT], notes := [], nextNoteId := 1 }

/-- Three retry requests for feature 1, as a tool-event trace. -/
def exRetrySeq : List (Nat × Nat × ToolOp) :=
  [(0, 1, ToolOp.featureStatusOp 1 ReqStatus.pending),
   (0, 1, ToolOp.featureStatusOp 1 ReqStatus.pending),
   (0, 1, ToolOp.featureStatusOp 1 ReqStatus.pending)]

/-- A freshly opened session row. -/
def exRow : SessionRow :=
  { id := 1, started_at := 0, ended_at := none, status := SessionStatus.running,
    features_attempted := 0, features_completed := 0, input_tokens := none,
    output_tokens := none, cost_usd := none, error_message := none }

/-- Post-session feature table with exactly one completed feature. -/
def exPostFs : List Feature :=
  [{ id := 1, name := "A", description := "", category := "cat",
     testing_steps := [], status := FeatureStatus.completed, retry_count := 0,
     created_at := 0, updated_at := 0 }]

/-- Agent-stream statistics whose observed completion count (5) differs
from the verified delta. -/
def exAgent : AgentSessionStats :=
  { inputTokens := 10, outputTokens := 20, cacheReadTokens := 0,
    cacheWriteTokens := 0, costUsd := 0, featuresCompleted := 5 }

/-- The session row obtained by closing `exRow` on the success path at
time 7 with a two-feature batch and one verified completion. -/
def exClosedRow : SessionRow :=
  { id := 1, started_at := 0, ended_at := some 7,
    status := SessionStatus.completed, features_attempted := 2,
    features_completed := 1, input_tokens := some 10,
    output_tokens := some 20, cost_usd := some 0, error_message := none }

-- ===========================================================================
-- Helper lemmas: the collation order
-- ===========================================================================

theorem charListLe_refl : ∀ l, charListLe l l = true
  | [] => rfl
  | a :: as => by simp [charListLe, charListLe_refl as]

theorem charListLe_total : ∀ l₁ l₂, charListLe l₁ l₂ = true ∨ charListLe l₂ l₁ = true
  | [], _ => Or.inl rfl
  | _ :: _, [] => Or.inr rfl
  | a :: as, b :: bs => by
    rcases Nat.lt_trichotomy a.toNat b.toNat with h | h | h
    · exact Or.inl (by simp [charListLe, h])
    · rcases charListLe_total as bs with ih | ih
      · exact Or.inl (by simp [charListLe, h, ih])
      · exact Or.inr (by simp [charListLe, h.symm, ih])
    · exact Or.inr (by simp [charListLe, h])

theorem charListLe_trans : ∀ l₁ l₂ l₃, charListLe l₁ l₂ = true →
    charListLe l₂ l₃ = true → charListLe l₁ l₃ = true
  | [], _, _, _, _ => rfl
  | _ :: _, [], _, h1, _ => by simp [charListLe] at h1
  | _ :: _, _ :: _, [], _, h2 => by simp [charListLe] at h2
  | a :: as, b :: bs, c :: cs, h1, h2 => by
    simp only [charListLe] at h1 h2 ⊢
    rcases Nat.lt_trichotomy a.toNat b.toNat with hab | hab | hab
    · rcases Nat.lt_trichotomy b.toNat c.toNat with hbc | hbc | hbc
      · simp [Nat.lt_trans hab hbc]
      · simp [hbc ▸ hab]
      · rw [if_neg (by omega), if_pos hbc] at h2; simp at h2
    · rw [if_neg (by omega), if_neg (by omega)] at h1
      rcases Nat.lt_trichotomy b.toNat c.toNat with hbc | hbc | hbc
      · simp [hab ▸ hbc]
      · rw [if_neg (by omega), if_neg (by omega)] at h2 ⊢
        exact charListLe_trans as bs cs h1 h2
      · rw [if_neg (by omega), if_pos hbc] at h2; simp at h2
    · rw [if_neg (by omega), if_pos hab] at h1; simp at h1

theorem strLe_refl (a : String) : strLe a a = true := charListLe_refl a.data

theorem strLe_total (a b : String) : strLe a b = true ∨ strLe b a = true :=
  charListLe_total a.data b.data

theorem strLe_trans {a b c : String} (h1 : strLe a b = true)
    (h2 : strLe b c = true) : strLe a c = true :=
  charListLe_trans a.data b.data c.data h1 h2

theorem minCategory_le_left (a b : String) : strLe (minCategory a b) a = true := by
  unfold minCategory; split
  · exact strLe_refl a
  · rcases strLe_total a b with h | h
    · simp_all
    · exact h

theorem minCategory_le_right (a b : String) : strLe (minCategory a b) b = true := by
  unfold minCategory; split
  · assumption
  · exact strLe_refl b

theorem minCategory_eq_or (a b : String) : minCategory a b = a ∨ minCategory a b = b := by
  unfold minCategory; split
  · exact Or.inl rfl
  · exact Or.inr rfl

theorem foldl_minCategory_le : ∀ (cs : List String) (c x : String),
    x = c ∨ x ∈ cs → strLe (cs.foldl minCategory c) x = true
  | [], c, x, h => by
    rcases h with h | h
    · exact h ▸ strLe_refl c
    · cases h
  | d :: ds, c, x, h => by
    have step : ∀ y, strLe (ds.foldl minCategory (minCategory c d)) (minCategory c d) = true →
        strLe (minCategory c d) y = true →
        strLe ((d :: ds).foldl minCategory c) y = true := by
      intro y h1 h2
      exact strLe_trans h1 h2
    have hbase : strLe (ds.foldl minCategory (minCategory c d)) (minCategory c d) = true :=
      foldl_minCategory_le ds (minCategory c d) (minCategory c d) (Or.inl rfl)
    rcases h with h | h
    · exact step x hbase (h ▸ minCategory_le_left c d)
    · rcases List.mem_cons.mp h with h | h
      · exact step x hbase (h ▸ minCategory_le_right c d)
      · exact foldl_minCategory_le ds (minCategory c d) x (Or.inr h)

theorem foldl_minCategory_mem : ∀ (cs : List String) (c : String),
    cs.foldl minCategory c = c ∨ cs.foldl minCategory c ∈ cs
  | [], _ => Or.inl rfl
  | d :: ds, c => by
    rcases foldl_minCategory_mem ds (minCategory c d) with h | h
    · rcases minCategory_eq_or c d with h2 | h2
      · exact Or.inl (by rw [List.foldl_cons, h, h2])
      · exact Or.inr (by rw [List.foldl_cons, h, h2]; exact List.mem_cons_self d ds)
    · exact Or.inr (List.mem_cons_of_mem d h)

-- ===========================================================================
-- Helper lemmas: pending features and the category query
-- ===========================================================================

theorem mem_pendingFeatures {g : Feature} {fs : List Feature} :
    g ∈ pendingFeatures fs ↔ g ∈ fs ∧ g.status = FeatureStatus.pending := by
  simp [pendingFeatures, List.mem_filter]

theorem minPendingCategory_none {fs : List Feature} :
    minPendingCategory fs = none ↔ pendingFeatures fs = [] := by
  unfold minPendingCategory
  cases h : (pendingFeatures fs).map Feature.category with
  | nil => simpa using List.map_eq_nil_iff.mp h
  | cons c cs =>
    simp only [reduceCtorEq, false_iff]
    intro hnil
    rw [hnil] at h
    simp at h

theorem minPendingCategory_le {fs : List Feature} {c : String}
    (h : minPendingCategory fs = some c) :
    ∀ g ∈ fs, g.status = FeatureStatus.pending → strLe c g.category = true := by
  intro g hg hs
  unfold minPendingCategory at h
  cases hm : (pendingFeatures fs).map Feature.category with
  | nil => rw [hm] at h; simp at h
  | cons c0 cs0 =>
    rw [hm] at h
    simp only [Option.some.injEq] at h
    have hgc : g.category ∈ (pendingFeatures fs).map Feature.category :=
      List.mem_map_of_mem Feature.category (mem_pendingFeatures.mpr ⟨hg, hs⟩)
    rw [hm] at hgc
    rcases List.mem_cons.mp hgc with h2 | h2
    · exact h ▸ foldl_minCategory_le cs0 c0 g.category (Or.inl h2)
    · exact h ▸ foldl_minCategory_le cs0 c0 g.category (Or.inr h2)

theorem minPendingCategory_mem {fs : List Feature} {c : String}
    (h : minPendingCategory fs = some c) :
    ∃ g ∈ fs, g.status = FeatureStatus.pending ∧ g.category = c := by
  unfold minPendingCategory at h
  cases hm : (pendingFeatures fs).map Feature.category with
  | nil => rw [hm] at h; simp at h
  | cons c0 cs0 =>
    rw [hm] at h
    simp only [Option.some.injEq] at h
    have hc : c ∈ (pendingFeatures fs).map Feature.category := by
      rw [hm, ← h]
      rcases foldl_minCategory_mem cs0 c0 with h2 | h2
      · rw [h2]; exact List.mem_cons_self c0 cs0
      · exact List.mem_cons_of_mem c0 h2
    rcases List.mem_map.mp hc with ⟨g, hg, hgc⟩
    rcases mem_pendingFeatures.mp hg with ⟨hgf, hgs⟩
    exact ⟨g, hgf, hgs, hgc⟩

-- ===========================================================================
-- Helper lemmas: the batch query
-- ===========================================================================

theorem getNextFeatures_mem {fs : List Feature} {c : String} {limit : Nat}
    (hc : minPendingCategory fs = some c) :
    ∀ f ∈ getNextFeatures fs limit,
      f ∈ fs ∧ f.status = FeatureStatus.pending ∧ f.category = c := by
  intro f hf
  unfold getNextFeatures at hf
  rw [hc] at hf
  have h1 := (List.take_sublist limit _).subset hf
  have h2 := (List.perm_insertionSort featureIdLe
    ((pendingFeatures fs).filter (fun f => f.category = c))).mem_iff.mp h1
  rcases List.mem_filter.mp h2 with ⟨h3, h4⟩
  rcases mem_pendingFeatures.mp h3 with ⟨h5, h6⟩
  exact ⟨h5, h6, of_decide_eq_true h4⟩

theorem getNextFeatures_sorted (fs : List Feature) (limit : Nat) :
    List.Pairwise featureIdLe (getNextFeatures fs limit) := by
  unfold getNextFeatures
  cases hc : minPendingCategory fs with
  | none => simp
  | some c =>
    exact List.Pairwise.sublist (List.take_sublist limit _)
      (List.sorted_insertionSort featureIdLe _)

theorem getNextFeatures_length_le (fs : List Feature) (limit : Nat) :
    (getNextFeatures fs limit).length ≤ limit := by
  unfold getNextFeatures
  cases hc : minPendingCategory fs with
  | none => simp
  | some c =>
    rw [List.length_take]
    exact Nat.min_le_left limit _

theorem getNextFeatures_lowest_ids {fs : List Feature} {c : String} {limit : Nat}
    (hc : minPendingCategory fs = some c) :
    ∀ f ∈ getNextFeatures fs limit, ∀ g ∈ fs,
      g.status = FeatureStatus.pending → g.category = c →
      g ∉ getNextFeatures fs limit → f.id ≤ g.id := by
  intro f hf g hg hgs hgc hgnot
  unfold getNextFeatures at hf hgnot
  rw [hc] at hf hgnot
  have hgL : g ∈ List.insertionSort featureIdLe
      ((pendingFeatures fs).filter (fun f => f.category = c)) := by
    refine (List.perm_insertionSort featureIdLe _).mem_iff.mpr ?_
    refine List.mem_filter.mpr ⟨mem_pendingFeatures.mpr ⟨hg, hgs⟩, by simpa using hgc⟩
  have hpw := List.sorted_insertionSort featureIdLe
    ((pendingFeatures fs).filter (fun f => f.category = c))
  rw [← List.take_append_drop limit (List.insertionSort featureIdLe
    ((pendingFeatures fs).filter (fun f => f.category = c)))] at hpw hgL
  have hcross := (List.pairwise_append.mp hpw).2.2
  rcases List.mem_append.mp hgL with h | h
  · exact absurd h hgnot
  · exact hcross f hf g h

theorem getNextFeatures_of_none {fs : List Feature} {limit : Nat}
    (hc : minPendingCategory fs = none) : getNextFeatures fs limit = [] := by
  unfold getNextFeatures
  rw [hc]

theorem getNextFeatures_nil_iff {fs : List Feature} {limit : Nat} (hl : 0 < limit) :
    getNextFeatures fs limit = [] ↔ pendingFeatures fs = [] := by
  constructor
  · intro hnil
    by_contra hp
    have hc : ∃ c, minPendingCategory fs = some c := by
      cases hmc : minPendingCategory fs with
      | none => exact absurd (minPendingCategory_none.mp hmc) hp
      | some c => exact ⟨c, rfl⟩
    rcases hc with ⟨c, hc⟩
    rcases minPendingCategory_mem hc with ⟨g, hg, hgs, hgc⟩
    have hgL : g ∈ List.insertionSort featureIdLe
        ((pendingFeatures fs).filter (fun f => f.category = c)) := by
      refine (List.perm_insertionSort featureIdLe _).mem_iff.mpr ?_
      exact List.mem_filter.mpr ⟨mem_pendingFeatures.mpr ⟨hg, hgs⟩, by simpa using hgc⟩
    have hlen : 0 < (List.insertionSort featureIdLe
        ((pendingFeatures fs).filter (fun f => f.category = c))).length :=
      List.length_pos.mpr (fun h => by simp [h] at hgL)
    unfold getNextFeatures at hnil
    rw [hc] at hnil
    have := congrArg List.length hnil
    simp only [List.length_take, List.length_nil] at this
    omega
  · intro hp
    unfold getNextFeatures
    rw [minPendingCategory_none.mpr hp]

-- ===========================================================================
-- Helper lemmas: id lookup and id preservation
-- ===========================================================================

theorem lookupFeature_eq_some {fs : List Feature} {g : Feature} {i : Nat}
    (hnd : (fs.map Feature.id).Nodup) (hg : g ∈ fs) (hid : g.id = i) :
    lookupFeature fs i = some g := by
  induction fs with
  | nil => cases hg
  | cons a as ih =>
    rw [List.map_cons, List.nodup_cons] at hnd
    by_cases ha : a.id = i
    · have hfind : lookupFeature (a :: as) i = some a := by
        simp [lookupFeature, List.find?_cons_of_pos, ha]
      rcases List.mem_cons.mp hg with h | h
      · exact h ▸ hfind
      · exact absurd (ha ▸ hid ▸ List.mem_map_of_mem Feature.id h) hnd.1
    · have hga : g ≠ a := fun h => ha (h ▸ hid)
      have hg2 : g ∈ as := (List.mem_cons.mp hg).resolve_left hga
      have : lookupFeature (a :: as) i = lookupFeature as i := by
        simp [lookupFeature, List.find?_cons_of_neg, ha]
      rw [this]
      exact ih hnd.2 hg2

theorem map_id_of_update {u : Feature → Feature} (hu : ∀ f, (u f).id = f.id)
    (fs : List Feature) : (fs.map u).map Feature.id = fs.map Feature.id := by
  rw [List.map_map]
  exact List.map_congr_left fun f _ => hu f

theorem ids_setFeatureStatus (fs : List Feature) (now i : Nat) (s : FeatureStatus) :
    (setFeatureStatus fs now i s).map Feature.id = fs.map Feature.id := by
  unfold setFeatureStatus
  exact map_id_of_update (fun f => by split <;> rfl) fs

theorem ids_bumpRetryCount (fs : List Feature) (i : Nat) :
    (bumpRetryCount fs i).map Feature.id = fs.map Feature.id := by
  unfold bumpRetryCount
  exact map_id_of_update (fun f => by split <;> rfl) fs

theorem ids_setStatusOnly (fs : List Feature) (i : Nat) (s : FeatureStatus) :
    (setStatusOnly fs i s).map Feature.id = fs.map Feature.id := by
  unfold setStatusOnly
  exact map_id_of_update (fun f => by split <;> rfl) fs

theorem ids_markFeatureForRetry (fs : List Feature) (i M : Nat) :
    ((markFeatureForRetry fs i M).1).map Feature.id = fs.map Feature.id := by
  unfold markFeatureForRetry
  cases h : lookupFeature (bumpRetryCount fs i) i with
  | none => simp [h, ids_bumpRetryCount]
  | some row => simp [h, ids_setStatusOnly, ids_bumpRetryCount]

theorem ids_applyFeatureStatusTool (fs : List Feature) (now i : Nat) (s : ReqStatus) :
    (applyFeatureStatusTool fs now i s).map Feature.id = fs.map Feature.id := by
  cases s with
  | pending => exact ids_markFeatureForRetry fs i MAX_RETRIES
  | in_progress => exact ids_setFeatureStatus fs now i FeatureStatus.in_progress
  | completed => exact ids_setFeatureStatus fs now i FeatureStatus.completed

theorem ids_applyToolOp (now sessionId : Nat) (op : ToolOp) (st : DbState) :
    ((applyToolOp now sessionId op st).features).map Feature.id =
      st.features.map Feature.id := by
  cases op with
  | featureStatusOp i s => exact ids_applyFeatureStatusTool st.features now i s
  | featureNote _ _ => rfl
  | categoryNote _ _ => rfl
  | globalNote _ => rfl
  | getNotes _ _ => rfl
  | getStats _ => rfl
  | listFeatures _ _ => rfl
  | verificationChecklist _ => rfl
  | reportVerificationIssue _ _ => rfl

-- ===========================================================================
-- Helper lemmas: characterization of a found retry
-- ===========================================================================

theorem markFeatureForRetry_spec {fs : List Feature} {g : Feature} {i : Nat}
    (M : Nat) (hnd : (fs.map Feature.id).Nodup) (hg : g ∈ fs) (hid : g.id = i) :
    markFeatureForRetry fs i M =
      (fs.map (fun f => if f.id = i then
          { f with retry_count := f.retry_count + 1,
                   status := if M ≤ g.retry_count + 1 then FeatureStatus.failed
                             else FeatureStatus.pending }
        else f),
       some ((if M ≤ g.retry_count + 1 then FeatureStatus.failed
              else FeatureStatus.pending), g.retry_count + 1)) := by
  have hmem : ({ g with retry_count := g.retry_count + 1 } : Feature) ∈
      bumpRetryCount fs i :=
    List.mem_map.mpr ⟨g, hg, by simp [hid]⟩
  have hnd2 : ((bumpRetryCount fs i).map Feature.id).Nodup := by
    rw [ids_bumpRetryCount]; exact hnd
  have hlook : lookupFeature (bumpRetryCount fs i) i =
      some { g with retry_count := g.retry_count + 1 } :=
    lookupFeature_eq_some hnd2 hmem hid
  unfold markFeatureForRetry
  simp only [hlook]
  refine Prod.ext ?_ rfl
  show setStatusOnly (bumpRetryCount fs i) i _ = _
  unfold setStatusOnly bumpRetryCount
  rw [List.map_map]
  refine List.map_congr_left fun f _ => ?_
  by_cases hf : f.id = i
  · simp [hf]
  · simp [hf]

theorem markFeatureForRetry_not_found {fs : List Feature} {i : Nat} (M : Nat)
    (hno : ∀ f ∈ fs, f.id ≠ i) : markFeatureForRetry fs i M = (fs, none) := by
  have hb : bumpRetryCount fs i = fs := by
    unfold bumpRetryCount
    have heq : ∀ f ∈ fs,
        (if f.id = i then { f with retry_count := f.retry_count + 1 } else f) = f :=
      fun f hf => if_neg (hno f hf)
    rw [List.map_congr_left heq]
    exact List.map_id fs
  have hl : lookupFeature fs i = none :=
    List.find?_eq_none.mpr (fun x hx => by simpa using hno x hx)
  simp only [markFeatureForRetry]
  rw [hb, hl]

theorem eq_of_mem_of_id_eq {fs : List Feature} {a b : Feature}
    (hnd : (fs.map Feature.id).Nodup) (ha : a ∈ fs) (hb : b ∈ fs)
    (hab : a.id = b.id) : a = b := by
  have h1 := lookupFeature_eq_some hnd ha rfl
  have h2 := lookupFeature_eq_some hnd hb hab.symm
  rw [h1] at h2
  exact Option.some.inj h2

-- ===========================================================================
-- Helper lemmas: invariant preservation
-- ===========================================================================

theorem retryInvariant_markRetry {fs : List Feature} {i : Nat}
    (hnd : (fs.map Feature.id).Nodup) (h : retryInvariant fs) :
    retryInvariant (markFeatureForRetry fs i MAX_RETRIES).1 := by
  by_cases hex : ∃ g ∈ fs, g.id = i
  · rcases hex with ⟨g, hg, hgid⟩
    rw [markFeatureForRetry_spec MAX_RETRIES hnd hg hgid]
    intro f' hf' hrc
    rcases List.mem_map.mp hf' with ⟨f, hf, rfl⟩
    by_cases hfi : f.id = i
    · have hfg : f = g := eq_of_mem_of_id_eq hnd hf hg (hfi.trans hgid.symm)
      rw [if_pos hfi] at hrc ⊢
      by_cases hcross : MAX_RETRIES ≤ g.retry_count + 1
      · show (if MAX_RETRIES ≤ g.retry_count + 1 then FeatureStatus.failed
          else FeatureStatus.pending) = FeatureStatus.failed
        rw [if_pos hcross]
      · exfalso
        have hrc2 : MAX_RETRIES ≤ f.retry_count + 1 := hrc
        rw [hfg] at hrc2
        exact hcross hrc2
    · rw [if_neg hfi] at hrc ⊢
      exact h f hf hrc
  · push_neg at hex
    rw [markFeatureForRetry_not_found MAX_RETRIES hex]
    exact h

theorem retryInvariant_resetOrphans {fs : List Feature} (h : retryInvariant fs) :
    retryInvariant (resetOrphanedFeatures fs).1 := by
  intro f' hf' hrc
  rcases List.mem_map.mp hf' with ⟨f, hf, rfl⟩
  by_cases hs : f.status = FeatureStatus.in_progress
  · exfalso
    rw [if_pos hs] at hrc
    have hrc2 : MAX_RETRIES ≤ f.retry_count := hrc
    rw [h f hf hrc2] at hs
    cases hs
  · rw [if_neg hs] at hrc ⊢
    exact h f hf hrc

theorem features_applyToolOp_of_not_write (now sessionId : Nat) (op : ToolOp)
    (st : DbState) (hop : writesFeatures op = false) :
    (applyToolOp now sessionId op st).features = st.features := by
  cases op <;> first | rfl | simp [writesFeatures] at hop

-- ===========================================================================
-- Helper lemmas: how a feature can become failed
-- ===========================================================================

theorem flip_step {st : DbState} {now sessionId i : Nat} {op : ToolOp}
    (hnd : (st.features.map Feature.id).Nodup)
    (hP : ¬ failedWithId st.features i)
    (hP2 : failedWithId (applyToolOp now sessionId op st).features i) :
    op = ToolOp.featureStatusOp i ReqStatus.pending ∧
    ∃ g ∈ (applyToolOp now sessionId op st).features,
      g.id = i ∧ g.status = FeatureStatus.failed ∧ MAX_RETRIES ≤ g.retry_count := by
  cases op with
  | featureNote _ _ => exact absurd hP2 hP
  | categoryNote _ _ => exact absurd hP2 hP
  | globalNote _ => exact absurd hP2 hP
  | getNotes _ _ => exact absurd hP2 hP
  | getStats _ => exact absurd hP2 hP
  | listFeatures _ _ => exact absurd hP2 hP
  | verificationChecklist _ => exact absurd hP2 hP
  | reportVerificationIssue _ _ => exact absurd hP2 hP
  | featureStatusOp j s =>
    cases s with
    | in_progress =>
      exfalso
      rcases hP2 with ⟨g, hg, hgid, hgst⟩
      rcases List.mem_map.mp hg with ⟨f, hf, rfl⟩
      by_cases hfj : f.id = j
      · rw [if_pos hfj] at hgst
        cases hgst
      · rw [if_neg hfj] at hgid hgst
        exact hP ⟨f, hf, hgid, hgst⟩
    | completed =>
      exfalso
      rcases hP2 with ⟨g, hg, hgid, hgst⟩
      rcases List.mem_map.mp hg with ⟨f, hf, rfl⟩
      by_cases hfj : f.id = j
      · rw [if_pos hfj] at hgst
        cases hgst
      · rw [if_neg hfj] at hgid hgst
        exact hP ⟨f, hf, hgid, hgst⟩
    | pending =>
      by_cases hex : ∃ g ∈ st.features, g.id = j
      · rcases hex with ⟨g0, hg0, hg0id⟩
        have hspec := markFeatureForRetry_spec MAX_RETRIES hnd hg0 hg0id
        have hfeat : (applyToolOp now sessionId
            (ToolOp.featureStatusOp j ReqStatus.pending) st).features =
            (markFeatureForRetry st.features j MAX_RETRIES).1 := rfl
        rcases hP2 with ⟨g, hg, hgid, hgst⟩
        rw [hfeat, hspec] at hg
        rcases List.mem_map.mp hg with ⟨f, hf, rfl⟩
        by_cases hfj : f.id = j
        · rw [if_pos hfj] at hgid hgst
          have hfid : f.id = i := hgid
          have hji : j = i := hfj.symm.trans hfid
          subst hji
          have hns : (if MAX_RETRIES ≤ g0.retry_count + 1 then FeatureStatus.failed
              else FeatureStatus.pending) = FeatureStatus.failed := hgst
          by_cases hcross : MAX_RETRIES ≤ g0.retry_count + 1
          · refine ⟨rfl, _, ?_, hgid, hgst, ?_⟩
            · rw [hfeat, hspec]
              exact List.mem_map.mpr ⟨f, hf, if_pos hfj⟩
            · have hfg0 : f = g0 := eq_of_mem_of_id_eq hnd hf hg0 (hfj.trans hg0id.symm)
              show MAX_RETRIES ≤ f.retry_count + 1
              rw [hfg0]
              exact hcross
          · exfalso
            rw [if_neg hcross] at hns
            cases hns
        · rw [if_neg hfj] at hgid hgst
          exact absurd ⟨f, hf, hgid, hgst⟩ hP
      · push_neg at hex
        exfalso
        have hfeat : (applyToolOp now sessionId
            (ToolOp.featureStatusOp j ReqStatus.pending) st).features =
            (markFeatureForRetry st.features j MAX_RETRIES).1 := rfl
        rw [hfeat, markFeatureForRetry_not_found MAX_RETRIES hex] at hP2
        exact hP hP2

theorem failed_only_by_retry_aux :
    ∀ (es : List (Nat × Nat × ToolOp)) (st : DbState) (i : Nat),
    (st.features.map Feature.id).Nodup →
    ¬ failedWithId st.features i →
    failedWithId (applyToolSeq st es).features i →
    ∃ pre e post, es = pre ++ e :: post ∧
      e.2.2 = ToolOp.featureStatusOp i ReqStatus.pending ∧
      ¬ failedWithId (applyToolSeq st pre).features i ∧
      (∃ g ∈ (applyToolSeq st (pre ++ [e])).features,
        g.id = i ∧ g.status = FeatureStatus.failed ∧ MAX_RETRIES ≤ g.retry_count)
  | [], _, _, _, hP, hP2 => absurd hP2 hP
  | e :: rest, st, i, hnd, hP, hP2 => by
    by_cases hmid : failedWithId (applyToolEvent st e).features i
    · have hstep := flip_step hnd hP hmid
      exact ⟨[], e, rest, rfl, hstep.1, hP, hstep.2⟩
    · have hnd2 : ((applyToolEvent st e).features.map Feature.id).Nodup := by
        have := ids_applyToolOp e.1 e.2.1 e.2.2 st
        rw [show (applyToolEvent st e) = applyToolOp e.1 e.2.1 e.2.2 st from rfl, this]
        exact hnd
      rcases failed_only_by_retry_aux rest (applyToolEvent st e) i hnd2 hmid hP2
        with ⟨pre, e2, post, heq, hop, hpre, hflip⟩
      exact ⟨e :: pre, e2, post, by rw [heq]; rfl, hop, hpre, hflip⟩

theorem retryIter_invariant {fs : List Feature} {g : Feature} {i M : Nat}
    (hnd : (fs.map Feature.id).Nodup) (hg : g ∈ fs) (hid : g.id = i)
    (hs : g.status = FeatureStatus.pending) (h0 : g.retry_count = 0)
    (hM : 0 < M) :
    ∀ k, k ≤ M →
      ((retryIter fs i M k).map Feature.id = fs.map Feature.id) ∧
      ∃ gk ∈ retryIter fs i M k, gk.id = i ∧ gk.retry_count = k ∧
        gk.status = (if M ≤ k then FeatureStatus.failed else FeatureStatus.pending) := by
  intro k
  induction k with
  | zero =>
    intro _
    refine ⟨rfl, g, hg, hid, h0, ?_⟩
    rw [if_neg (by omega)]
    exact hs
  | succ k ih =>
    intro hk1
    rcases ih (by omega) with ⟨hids, gk, hgk, hgkid, hgkrc, hgkst⟩
    have hndk : ((retryIter fs i M k).map Feature.id).Nodup := by
      rw [hids]; exact hnd
    have hspec := markFeatureForRetry_spec M hndk hgk hgkid
    constructor
    · show ((markFeatureForRetry (retryIter fs i M k) i M).1).map Feature.id =
        fs.map Feature.id
      rw [ids_markFeatureForRetry, hids]
    · have hgk2 : ∀ gk2 : Feature, gk2 ∈ retryIter fs i M (k + 1) →
          gk2.id = i → gk2.retry_count = k + 1 →
          gk2.status = (if M ≤ k + 1 then FeatureStatus.failed
            else FeatureStatus.pending) →
          ∃ x ∈ retryIter fs i M (k + 1), x.id = i ∧ x.retry_count = k + 1 ∧
            x.status = (if M ≤ k + 1 then FeatureStatus.failed
              else FeatureStatus.pending) :=
        fun gk2 h1 h2 h3 h4 => ⟨gk2, h1, h2, h3, h4⟩
      refine hgk2 ({ gk with
        retry_count := gk.retry_count + 1,
        status := if M ≤ gk.retry_count + 1 then FeatureStatus.failed
                  else FeatureStatus.pending }) ?_ hgkid ?_ ?_
      · show _ ∈ (markFeatureForRetry (retryIter fs i M k) i M).1
        rw [hspec]
        exact List.mem_map.mpr ⟨gk, hgk, if_pos hgkid⟩
      · show gk.retry_count + 1 = k + 1
        rw [hgkrc]
      · show (if M ≤ gk.retry_count + 1 then FeatureStatus.failed
          else FeatureStatus.pending) = _
        rw [hgkrc]

theorem runLoop_halts (tr : List Bool) (s : LoopState)
    (h : maxConsecutiveFailures ≤ s.consecutiveFailures) :
    runLoop false tr s = s := by
  cases tr with
  | nil => rfl
  | cons o rest =>
    show (if maxConsecutiveFailures ≤ s.consecutiveFailures ∧ false = false
      then s else runLoop false rest (iterResult s o)) = s
    rw [if_pos ⟨h, rfl⟩]

theorem retry_if_flip (M c : Nat) :
    (if M ≤ c then FeatureStatus.failed else FeatureStatus.pending) =
      (if c < M then FeatureStatus.pending else FeatureStatus.failed) := by
  rcases Nat.lt_or_ge c M with h | h
  · rw [if_neg (by omega), if_pos h]
  · rw [if_pos h, if_neg (by omega)]

theorem sqlEq_some_iff {α : Type} [BEq α] [LawfulBEq α] {a : α} {ob : Option α} :
    sqlEq (some a) ob = true ↔ ob = some a := by
  cases ob with
  | none => simp [sqlEq]
  | some b =>
    show (a == b) = true ↔ some b = some a
    rw [beq_iff_eq]
    constructor
    · intro h; rw [h]
    · intro h; exact (Option.some.inj h).symm

theorem noteMatches_iff {f : Nat} {c : String} {n : Note} :
    noteMatches (some f) (some c) n = true ↔
      (n.feature_id = some f ∨ n.category = some c ∨
        (n.feature_id = none ∧ n.category = none)) := by
  unfold noteMatches
  rw [Bool.or_eq_true, Bool.or_eq_true, Bool.and_eq_true]
  rw [sqlEq_some_iff, sqlEq_some_iff]
  simp only [beq_iff_eq]
  exact or_assoc

-- ===========================================================================
-- Claims
-- ===========================================================================

/-- Claim C1, counterexample: in the two-feature table `[exZ, exA]` every
feature is pending, the pending feature with the numerically lowest id (1)
has category "zz", yet the batch returned by `getNextFeatures` is drawn
from category "aa" — category selection follows string order, not lowest
id. -/
theorem C1_counterexample :
    specLowestIdPendingCategory [exZ, exA] = some ("zz") ∧
    (getNextFeatures [exZ, exA] 3).map Feature.category = ["aa"] ∧
    ¬ (∀ f ∈ getNextFeatures [exZ, exA] 3, f.category = "zz") := by
  refine ⟨by decide, by decide, ?_⟩
  intro hall
  exact absurd (hall exA (by decide)) (by decide)

/-- Claim C1 as amended: for every feature set with at least one pending
feature, `getNextFeatures` draws its whole batch from the alphabetically
least (binary collation order) category that contains a pending feature. -/
theorem C1_batch_category_alphabetical (fs : List Feature) (limit : Nat)
    (h : pendingFeatures fs ≠ []) :
    ∃ c, minPendingCategory fs = some c ∧
      (∃ g ∈ fs, g.status = FeatureStatus.pending ∧ g.category = c) ∧
      (∀ g ∈ fs, g.status = FeatureStatus.pending → strLe c g.category = true) ∧
      (∀ f ∈ getNextFeatures fs limit, f.category = c) := by
  cases hc : minPendingCategory fs with
  | none => exact absurd (minPendingCategory_none.mp hc) h
  | some c =>
    exact ⟨c, rfl, minPendingCategory_mem hc, minPendingCategory_le hc,
      fun f hf => (getNextFeatures_mem hc f hf).2.2⟩

/-- Witness for the amended claim C1 at the concrete table `[exZ, exA]`. -/
theorem C1_batch_category_alphabetical_witness :
    ∃ c, minPendingCategory [exZ, exA] = some c ∧
      (∃ g ∈ [exZ, exA], g.status = FeatureStatus.pending ∧ g.category = c) ∧
      (∀ g ∈ [exZ, exA], g.status = FeatureStatus.pending →
        strLe c g.category = true) ∧
      (∀ f ∈ getNextFeatures [exZ, exA] 3, f.category = c) :=
  C1_batch_category_alphabetical [exZ, exA] 3 (by decide)

/-- Claim C2, counterexample: the state with the single feature `exT`
(failed, retry_count = MAX_RETRIES) satisfies invariant I2, but one call
of the `feature_status` tool with the accepted value completed leaves the
feature with retry_count = MAX_RETRIES and status completed, violating
I2. -/
theorem C2_counterexample :
    retryInvariant exFailedSt.features ∧
    ¬ retryInvariant (applyToolOp 0 1
        (ToolOp.featureStatusOp 1 ReqStatus.completed) exFailedSt).features := by
  constructor
  · decide
  · intro h
    have := h { exT with status := FeatureStatus.completed, updated_at := 0 }
      (by decide) (by decide)
    exact absurd this (by decide)

/-- Claim C2 as amended: invariant I2 (retry_count at least MAX_RETRIES
implies status failed) is preserved by `markFeatureForRetry` (the
`feature_status` tool with status pending), by `resetOrphanedFeatures`,
and by every tool operation that does not write feature status; the
unconditional `setFeatureStatus` write (the tool with in_progress or
completed) is the one operation that can violate it. -/
theorem C2_retry_invariant_amended (st : DbState) (now sessionId : Nat)
    (hnd : (st.features.map Feature.id).Nodup)
    (h : retryInvariant st.features) :
    (∀ i, retryInvariant (applyToolOp now sessionId
      (ToolOp.featureStatusOp i ReqStatus.pending) st).features) ∧
    retryInvariant (resetOrphanedFeatures st.features).1 ∧
    (∀ op, writesFeatures op = false →
      (applyToolOp now sessionId op st).features = st.features) :=
  ⟨fun _ => retryInvariant_markRetry hnd h,
   retryInvariant_resetOrphans h,
   fun op hop => features_applyToolOp_of_not_write now sessionId op st hop⟩

/-- Witness for the amended claim C2: a retry request on the failed
feature `exT` keeps invariant I2. -/
theorem C2_retry_invariant_amended_witness :
    retryInvariant (applyToolOp 0 1
      (ToolOp.featureStatusOp 1 ReqStatus.pending) exFailedSt).features :=
  (C2_retry_invariant_amended exFailedSt 0 1 (by decide) (by decide)).1 1

/-- Claim C5: with the force flag unset, once the consecutive-failure
counter has reached maxConsecutiveFailures (3) the outer loop stops
without opening another session (the state, including the session count,
is unchanged for any remaining iterations); after three consecutive
failing iterations from a fresh counter exactly 3 sessions were opened,
whatever would follow; and a successful iteration resets the counter
to 0. -/
theorem C5_circuit_breaker :
    (∀ (tr : List Bool) (s : LoopState),
      maxConsecutiveFailures ≤ s.consecutiveFailures → runLoop false tr s = s) ∧
    (∀ tr : List Bool,
      (runLoop false ([false, false, false] ++ tr)
        { consecutiveFailures := 0, sessionsOpened := 0 }).sessionsOpened = 3) ∧
    (∀ s : LoopState, (iterResult s true).consecutiveFailures = 0) := by
  refine ⟨runLoop_halts, ?_, fun s => rfl⟩
  intro tr
  have h1 : runLoop false ([false, false, false] ++ tr)
      { consecutiveFailures := 0, sessionsOpened := 0 } =
      runLoop false tr { consecutiveFailures := 3, sessionsOpened := 3 } := rfl
  rw [h1, runLoop_halts tr _ (by decide)]

/-- Witness for claim C5: the breaker halts a concrete tripped state, and
a concrete successful iteration resets the counter. -/
theorem C5_circuit_breaker_witness :
    runLoop false [true] { consecutiveFailures := 3, sessionsOpened := 7 } =
      { consecutiveFailures := 3, sessionsOpened := 7 } ∧
    (runLoop false ([false, false, false] ++ [false])
      { consecutiveFailures := 0, sessionsOpened := 0 }).sessionsOpened = 3 ∧
    (iterResult { consecutiveFailures := 2, sessionsOpened := 9 } true).consecutiveFailures = 0 :=
  ⟨C5_circuit_breaker.1 [true] _ (by decide),
   C5_circuit_breaker.2.1 [false],
   C5_circuit_breaker.2.2 _⟩

/-- Claim C3: starting from a pending feature with retry_count 0, the
first k < M retry calls leave it pending with retry_count k, the M-th
call leaves it failed with retry_count M, and every call returns the new
status together with the incremented count. -/
theorem C3_retry_law (fs : List Feature) (g : Feature) (i M : Nat)
    (hnd : (fs.map Feature.id).Nodup) (hg : g ∈ fs) (hid : g.id = i)
    (hs : g.status = FeatureStatus.pending) (h0 : g.retry_count = 0)
    (hM : 0 < M) :
    (∀ k, k < M → ∃ gk ∈ retryIter fs i M k, gk.id = i ∧
      gk.retry_count = k ∧ gk.status = FeatureStatus.pending) ∧
    (∃ gM ∈ retryIter fs i M M, gM.id = i ∧ gM.retry_count = M ∧
      gM.status = FeatureStatus.failed) ∧
    (∀ k, k < M → (markFeatureForRetry (retryIter fs i M k) i M).2 =
      some ((if M ≤ k + 1 then FeatureStatus.failed else FeatureStatus.pending),
        k + 1)) := by
  have hinv := retryIter_invariant hnd hg hid hs h0 hM
  refine ⟨?_, ?_, ?_⟩
  · intro k hk
    rcases (hinv k (by omega)).2 with ⟨gk, hgk, h1, h2, h3⟩
    rw [if_neg (by omega)] at h3
    exact ⟨gk, hgk, h1, h2, h3⟩
  · rcases (hinv M (Nat.le_refl M)).2 with ⟨gM, hgM, h1, h2, h3⟩
    rw [if_pos (Nat.le_refl M)] at h3
    exact ⟨gM, hgM, h1, h2, h3⟩
  · intro k hk
    rcases hinv k (by omega) with ⟨hids, gk, hgk, h1, h2, h3⟩
    have hndk : ((retryIter fs i M k).map Feature.id).Nodup := by
      rw [hids]; exact hnd
    rw [markFeatureForRetry_spec M hndk hgk h1, h2]

/-- Witness for claim C3 at the one-feature table `[exZ]` with M = 2: the
second retry call fails the feature with retry_count 2. -/
theorem C3_retry_law_witness :
    ∃ gM ∈ retryIter [exZ] 1 2 2, gM.id = 1 ∧ gM.retry_count = 2 ∧
      gM.status = FeatureStatus.failed :=
  (C3_retry_law [exZ] exZ 1 2 (by decide) (by decide) rfl rfl rfl
    (by decide)).2.1

/-- Claim C4: starting from a state with no failed feature, under any
sequence of tool operations a feature can become failed only at a
`feature_status` call with status pending (a retry request) whose
incremented retry_count has reached MAX_RETRIES; no tool operation sets
failed directly. -/
theorem C4_failed_only_by_retry (es : List (Nat × Nat × ToolOp)) (st : DbState)
    (i : Nat) (hnd : (st.features.map Feature.id).Nodup)
    (h0 : ∀ g ∈ st.features, g.status ≠ FeatureStatus.failed)
    (hf : failedWithId (applyToolSeq st es).features i) :
    ∃ pre e post, es = pre ++ e :: post ∧
      e.2.2 = ToolOp.featureStatusOp i ReqStatus.pending ∧
      ¬ failedWithId (applyToolSeq st pre).features i ∧
      (∃ g ∈ (applyToolSeq st (pre ++ [e])).features,
        g.id = i ∧ g.status = FeatureStatus.failed ∧
        MAX_RETRIES ≤ g.retry_count) :=
  failed_only_by_retry_aux es st i hnd
    (fun hx => by rcases hx with ⟨g, hg, _, hgst⟩; exact h0 g hg hgst) hf

/-- Witness for claim C4: three retry requests on the pending feature of
`exPendingSt` produce a failed feature, and the flip happens at a retry
request that reaches MAX_RETRIES. -/
theorem C4_failed_only_by_retry_witness :
    ∃ pre e post, exRetrySeq = pre ++ e :: post ∧
      e.2.2 = ToolOp.featureStatusOp 1 ReqStatus.pending ∧
      ¬ failedWithId (applyToolSeq exPendingSt pre).features 1 ∧
      (∃ g ∈ (applyToolSeq exPendingSt (pre ++ [e])).features,
        g.id = 1 ∧ g.status = FeatureStatus.failed ∧
        MAX_RETRIES ≤ g.retry_count) :=
  C4_failed_only_by_retry exRetrySeq exPendingSt 1 (by decide) (by decide)
    (by decide)

/-- Claim C6: on the success path the session row is closed with status
completed, features_attempted = batch length, and features_completed =
the completed count read after the session minus the count captured
before it; the closing record does not depend on the completion count
observed from tool-call events. -/
theorem C6_close_success (sessions : List SessionRow)
    (now sessionId preCompleted : Nat) (fsPost : List Feature)
    (batch : List Feature) (agent : AgentSessionStats) :
    (∀ r ∈ endSession sessions now sessionId
        (closeSuccessStats preCompleted fsPost batch.length agent),
      r.id = sessionId →
        r.status = SessionStatus.completed ∧
        r.features_attempted = batch.length ∧
        r.features_completed =
          (kanbanCompleted fsPost : Int) - (preCompleted : Int) ∧
        r.ended_at = some now) ∧
    (∀ n, closeSuccessStats preCompleted fsPost batch.length
        { agent with featuresCompleted := n } =
      closeSuccessStats preCompleted fsPost batch.length agent) := by
  constructor
  · intro r hr hid
    rcases List.mem_map.mp hr with ⟨r0, hr0, rfl⟩
    by_cases h : r0.id = sessionId
    · rw [if_pos h]
      exact ⟨rfl, rfl, rfl, rfl⟩
    · rw [if_neg h] at hid
      exact absurd hid h
  · intro n
    rfl

/-- Witness for claim C6: closing the concrete session `exRow` at time 7
with batch `[exZ, exA]`, pre-count 0 and post-state `exPostFs` yields
`exClosedRow` with the verified delta 1, not the observed count 5. -/
theorem C6_close_success_witness :
    exClosedRow.status = SessionStatus.completed ∧
    exClosedRow.features_attempted = [exZ, exA].length ∧
    exClosedRow.features_completed =
      (kanbanCompleted exPostFs : Int) - (((0 : Nat)) : Int) ∧
    exClosedRow.ended_at = some 7 :=
  (C6_close_success [exRow] 7 1 0 exPostFs [exZ, exA] exAgent).1
    exClosedRow (by decide) (by decide)

/-- Claim C7, counterexample: in the table `[exZ, exA, exA3]` the
category with the numerically lowest pending member id is "zz", yet
`getNextFeatures` returns its batch from category "aa" — conjunct (b) of
the claim fails. -/
theorem C7_counterexample :
    specLowestIdPendingCategory [exZ, exA, exA3] = some ("zz") ∧
    (getNextFeatures [exZ, exA, exA3] 3).map Feature.category = ["aa", "aa"] ∧
    ¬ (∀ f ∈ getNextFeatures [exZ, exA, exA3] 3, f.category = "zz") := by
  refine ⟨by decide, by decide, ?_⟩
  intro hall
  exact absurd (hall exA (by decide)) (by decide)

/-- Claim C7 as amended: for every feature set and positive limit,
`getNextFeatures` returns at most limit features, all pending members of
the table sharing one category — the alphabetically least category with a
pending feature — being the lowest-id pending members of that category in
ascending id order; and the result is empty iff no pending feature
exists. -/
theorem C7_next_batch_contract (fs : List Feature) (limit : Nat)
    (hl : 0 < limit) :
    (getNextFeatures fs limit).length ≤ limit ∧
    (∀ f ∈ getNextFeatures fs limit,
      f ∈ fs ∧ f.status = FeatureStatus.pending) ∧
    (∀ f ∈ getNextFeatures fs limit, ∀ g ∈ fs,
      g.status = FeatureStatus.pending → strLe f.category g.category = true) ∧
    (∀ f ∈ getNextFeatures fs limit, ∀ g ∈ getNextFeatures fs limit,
      f.category = g.category) ∧
    List.Pairwise featureIdLe (getNextFeatures fs limit) ∧
    (∀ f ∈ getNextFeatures fs limit, ∀ g ∈ fs,
      g.status = FeatureStatus.pending → g.category = f.category →
      g ∉ getNextFeatures fs limit → f.id ≤ g.id) ∧
    (getNextFeatures fs limit = [] ↔
      ∀ g ∈ fs, g.status ≠ FeatureStatus.pending) := by
  refine ⟨getNextFeatures_length_le fs limit, ?_, ?_, ?_,
    getNextFeatures_sorted fs limit, ?_, ?_⟩
  · intro f hf
    cases hc : minPendingCategory fs with
    | none => rw [getNextFeatures_of_none hc] at hf; cases hf
    | some c => exact ⟨(getNextFeatures_mem hc f hf).1,
        (getNextFeatures_mem hc f hf).2.1⟩
  · intro f hf g hg hgs
    cases hc : minPendingCategory fs with
    | none => rw [getNextFeatures_of_none hc] at hf; cases hf
    | some c =>
      rw [(getNextFeatures_mem hc f hf).2.2]
      exact minPendingCategory_le hc g hg hgs
  · intro f hf g hg
    cases hc : minPendingCategory fs with
    | none => rw [getNextFeatures_of_none hc] at hf; cases hf
    | some c =>
      rw [(getNextFeatures_mem hc f hf).2.2, (getNextFeatures_mem hc g hg).2.2]
  · intro f hf g hg hgs hgc hgn
    cases hc : minPendingCategory fs with
    | none => rw [getNextFeatures_of_none hc] at hf; cases hf
    | some c =>
      refine getNextFeatures_lowest_ids hc f hf g hg hgs ?_ hgn
      rw [hgc, (getNextFeatures_mem hc f hf).2.2]
  · rw [getNextFeatures_nil_iff hl]
    constructor
    · intro hp g hg hgs
      have hmem : g ∈ pendingFeatures fs := mem_pendingFeatures.mpr ⟨hg, hgs⟩
      rw [hp] at hmem
      cases hmem
    · intro hall
      exact List.filter_eq_nil_iff.mpr fun g hg => by simpa using hall g hg

/-- Witness for the amended claim C7 at the concrete table
`[exZ, exA, exA3]` with limit 3. -/
theorem C7_next_batch_contract_witness :
    (getNextFeatures [exZ, exA, exA3] 3).length ≤ 3 :=
  (C7_next_batch_contract [exZ, exA, exA3] 3 (by decide)).1

/-- Claim C8: for every note table, feature id f and category c,
`getNotesForFeature` returns exactly the notes scoped to f, scoped to c,
or global (both fields NULL), ordered newest-first by creation time. -/
theorem C8_notes_for (notes : List Note) (f : Nat) (c : String) :
    (∀ n, n ∈ getNotesForFeature notes (some f) (some c) ↔
      (n ∈ notes ∧ (n.feature_id = some f ∨ n.category = some c ∨
        (n.feature_id = none ∧ n.category = none)))) ∧
    List.Pairwise noteNewerLe (getNotesForFeature notes (some f) (some c)) := by
  constructor
  · intro n
    unfold getNotesForFeature
    rw [(List.perm_insertionSort noteNewerLe _).mem_iff, List.mem_filter]
    exact and_congr_right fun _ => noteMatches_iff
  · exact List.sorted_insertionSort noteNewerLe _

/-- Claim C9: `resetOrphanedFeatures` turns every in_progress feature to
pending, changes nothing else (in particular no retry_count), returns the
number of rows it changed, and a second call with no intervening writes
changes 0 rows. -/
theorem C9_reset_orphans (fs : List Feature) :
    (resetOrphanedFeatures fs).1.length = fs.length ∧
    (∀ p ∈ fs.zip (resetOrphanedFeatures fs).1,
      (p.1.status = FeatureStatus.in_progress →
        p.2 = { p.1 with status := FeatureStatus.pending }) ∧
      (p.1.status ≠ FeatureStatus.in_progress → p.2 = p.1) ∧
      p.2.retry_count = p.1.retry_count) ∧
    (resetOrphanedFeatures fs).2 =
      ((fs.zip (resetOrphanedFeatures fs).1).filter
        (fun p => p.1 ≠ p.2)).length ∧
    resetOrphanedFeatures (resetOrphanedFeatures fs).1 =
      ((resetOrphanedFeatures fs).1, 0) := by
  have h1 : (resetOrphanedFeatures fs).1 = fs.map (fun f =>
      if f.status = FeatureStatus.in_progress then
        { f with status := FeatureStatus.pending } else f) := rfl
  have hzip := List.zip_map' id (fun f =>
    if f.status = FeatureStatus.in_progress then
      { f with status := FeatureStatus.pending } else f) fs
  rw [List.map_id] at hzip
  refine ⟨?_, ?_, ?_, ?_⟩
  · rw [h1, List.length_map]
  · intro p hp
    rw [h1, hzip] at hp
    rcases List.mem_map.mp hp with ⟨a, ha, rfl⟩
    dsimp only [id_eq]
    refine ⟨fun hs => by rw [if_pos hs], fun hs => by rw [if_neg hs], ?_⟩
    by_cases hs : a.status = FeatureStatus.in_progress
    · rw [if_pos hs]
    · rw [if_neg hs]
  · rw [h1, hzip]
    show (fs.filter (fun f => f.status = FeatureStatus.in_progress)).length = _
    rw [← List.countP_eq_length_filter, ← List.countP_eq_length_filter,
      List.countP_map]
    refine List.countP_congr fun a _ => ?_
    simp only [Function.comp_apply, id_eq, decide_eq_true_eq]
    constructor
    · intro hs heq
      have hst := congrArg Feature.status heq
      rw [if_pos hs] at hst
      rw [hs] at hst
      exact FeatureStatus.noConfusion hst
    · intro hne
      by_contra hs
      refine hne ?_
      rw [if_neg hs]
  · rw [h1]
    have hall : ∀ a ∈ fs.map (fun f =>
        if f.status = FeatureStatus.in_progress then
          { f with status := FeatureStatus.pending } else f),
        a.status ≠ FeatureStatus.in_progress := by
      intro a ha
      rcases List.mem_map.mp ha with ⟨b, hb, rfl⟩
      by_cases hs : b.status = FeatureStatus.in_progress
      · rw [if_pos hs]
        intro hcon
        exact FeatureStatus.noConfusion hcon
      · rw [if_neg hs]
        exact hs
    refine Prod.ext ?_ ?_
    · show List.map _ _ = _
      have heq : ∀ a ∈ fs.map (fun f =>
          if f.status = FeatureStatus.in_progress then
            { f with status := FeatureStatus.pending } else f),
          (if a.status = FeatureStatus.in_progress then
            { a with status := FeatureStatus.pending } else a) = a :=
        fun a ha => if_neg (hall a ha)
      rw [List.map_congr_left heq]
      exact List.map_id _
    · show (List.filter _ _).length = 0
      rw [List.filter_eq_nil_iff.mpr fun a ha => by simpa using hall a ha]
      rfl

/-- Witness for claim C9 (which has no hypothesis): the second call on
the concrete one-feature table `[exC]` changes nothing. -/
theorem C9_reset_orphans_witness :
    resetOrphanedFeatures (resetOrphanedFeatures [exC]).1 =
      ((resetOrphanedFeatures [exC]).1, 0) :=
  (C9_reset_orphans [exC]).2.2.2

/-- Claim C10: a `feature_status` call with status pending on a feature
in a terminal state (completed or failed) is not rejected and is not a
no-op: with retry_count r it yields retry_count r + 1 and status pending
when r + 1 < MAX_RETRIES, failed otherwise, and returns that pair. -/
theorem C10_retry_on_terminal (fs : List Feature) (now i r : Nat) (g : Feature)
    (hnd : (fs.map Feature.id).Nodup) (hg : g ∈ fs) (hid : g.id = i)
    (hterm : g.status = FeatureStatus.completed ∨
      g.status = FeatureStatus.failed)
    (hr : g.retry_count = r) :
    (∃ g2 ∈ applyFeatureStatusTool fs now i ReqStatus.pending,
      g2.id = i ∧ g2.retry_count = r + 1 ∧
      g2.status = (if r + 1 < MAX_RETRIES then FeatureStatus.pending
        else FeatureStatus.failed)) ∧
    (markFeatureForRetry fs i MAX_RETRIES).2 =
      some ((if r + 1 < MAX_RETRIES then FeatureStatus.pending
        else FeatureStatus.failed), r + 1) := by
  have hspec := markFeatureForRetry_spec MAX_RETRIES hnd hg hid
  have hflip := retry_if_flip MAX_RETRIES (r + 1)
  constructor
  · have hfeat : applyFeatureStatusTool fs now i ReqStatus.pending =
        (markFeatureForRetry fs i MAX_RETRIES).1 := rfl
    have hmem2 : ({ g with
        retry_count := g.retry_count + 1,
        status := if MAX_RETRIES ≤ g.retry_count + 1 then FeatureStatus.failed
          else FeatureStatus.pending } : Feature) ∈
        applyFeatureStatusTool fs now i ReqStatus.pending := by
      rw [hfeat, hspec]
      exact List.mem_map.mpr ⟨g, hg, if_pos hid⟩
    refine ⟨_, hmem2, hid, ?_, ?_⟩
    · show g.retry_count + 1 = r + 1
      rw [hr]
    · show (if MAX_RETRIES ≤ g.retry_count + 1 then FeatureStatus.failed
        else FeatureStatus.pending) = _
      rw [hr, hflip]
  · rw [hspec, hr, hflip]

/-- Witness for claim C10: one retry request on the completed feature
`exC` reopens it to pending with retry_count 1. -/
theorem C10_retry_on_terminal_witness :
    ∃ g2 ∈ applyFeatureStatusTool [exC] 0 1 ReqStatus.pending,
      g2.id = 1 ∧ g2.retry_count = 0 + 1 ∧
      g2.status = (if 0 + 1 < MAX_RETRIES then FeatureStatus.pending
        else FeatureStatus.failed) :=
  (C10_retry_on_terminal [exC] 0 1 0 exC (by decide) (by decide) rfl
    (Or.inl rfl) rfl).1

end AutoAgent
